import Mathlib

/-!
Verification development for the `wsecho` package: a WebSocket echo server
(`ServeHTTP`) and a latency-probe client (`Ping`).

The embedding models a connection's inbound traffic as a list of events
(data frames, ping/pong control frames, a close frame, or a transport read
failure).  Write failures are an oracle on a running write counter, external
context cancellation is an oracle on the loop iteration index, and measured
round-trip durations are an oracle on the iteration index.  The observable
behaviour of a run is a list of actions: frames written, log lines emitted,
and the connection close.

The control-frame semantics follow the gorilla/websocket library used by the
source: `ReadMessage` internally consumes control frames, invoking the
registered handlers; a ping handler error (here: the pong write failing)
surfaces as a read error; after the close handler runs, `ReadMessage`
returns a close error, so the read loop exits on its error path.
-/

namespace Wsecho

/-- Message-type constants of the websocket library (gorilla/websocket). -/
def textMessage : Nat := 1

/-- Binary message type constant. -/
def binaryMessage : Nat := 2

/-- Close message type constant. -/
def closeMessage : Nat := 8

/-- Ping message type constant. -/
def pingMessage : Nat := 9

/-- Pong message type constant. -/
def pongMessage : Nat := 10

/-- One inbound event on a connection, as seen by the read machinery. -/
inductive InEvent where
  | data (mt : Nat) (payload : List Nat)
  | ping (appData : List Nat)
  | pong (appData : List Nat)
  | closeFrame (code : Int) (text : List Nat)
  | readFail
deriving DecidableEq

/-- Observable actions of a run: frames written, log lines, connection close. -/
inductive Action where
  | write (mt : Nat) (payload : List Nat)
  | logPing (appData : List Nat)
  | logPong (appData : List Nat)
  | logClose (code : Int) (text : List Nat)
  | logRecv (nbytes : Nat)
  | logReadErr
  | logWriteErr
  | logSent (nbytes : Nat) (elapsed : Int)
  | logSummary (totalBytes : Nat) (mean : Int)
  | logUpgradeErr
  | closeConn
  | logCloseErr
deriving DecidableEq

/-- Result of one `ReadMessage` call: a data message, or an error. -/
inductive ReadRes where
  | msg (mt : Nat) (payload : List Nat)
  | errRead
deriving DecidableEq

/-- Full outcome of one `ReadMessage` call: actions performed while consuming
control frames, the result, the remaining events, the updated write counter,
and whether the close handler ran (cancelling the lifetime token). -/
structure ReadOut where
  acts : List Action
  res : ReadRes
  rest : List InEvent
  wc : Nat
  closed : Bool
deriving DecidableEq

/-- Model of `conn.ReadMessage()` with the handlers that both `ServeHTTP` and
`Ping` register: the ping handler logs and writes a pong with the same
payload (a failed pong write surfaces as a read error), the pong handler
only logs, and the close handler logs, cancels the lifetime token, and then
`ReadMessage` returns a close error. -/
def readMessage (wfail : Nat → Bool) : List InEvent → Nat → ReadOut
  | [], w => ⟨[], ReadRes.errRead, [], w, false⟩
  | InEvent.data mt p :: rest, w => ⟨[], ReadRes.msg mt p, rest, w, false⟩
  | InEvent.ping a :: rest, w =>
    if wfail w then ⟨[Action.logPing a], ReadRes.errRead, rest, w + 1, false⟩
    else
      let r := readMessage wfail rest (w + 1)
      ⟨Action.logPing a :: Action.write pongMessage a :: r.acts, r.res, r.rest, r.wc, r.closed⟩
  | InEvent.pong a :: rest, w =>
    let r := readMessage wfail rest w
    ⟨Action.logPong a :: r.acts, r.res, r.rest, r.wc, r.closed⟩
  | InEvent.closeFrame code t :: rest, w =>
    ⟨[Action.logClose code t], ReadRes.errRead, rest, w, true⟩
  | InEvent.readFail :: rest, w => ⟨[], ReadRes.errRead, rest, w, false⟩

/-- Body of the server echo loop of `ServeHTTP`, entered after the
loop-top cancellation check has passed.  It processes inbound events like
`ReadMessage` does (control frames inline), echoes each data message back
with the same message type and payload, and checks the context again before
the next read.  Returns the actions performed and the final state of the
lifetime token. -/
def echoGo (wfail ext : Nat → Bool) : List InEvent → Bool → Nat → Nat → List Action × Bool
  | [], c, _, _ => ([Action.logReadErr], c)
  | InEvent.data mt p :: rest, c, i, w =>
    if wfail w then ([Action.logRecv p.length, Action.logWriteErr], c)
    else
      let t := if c || ext (i + 1) then (([] : List Action), c)
               else echoGo wfail ext rest c (i + 1) (w + 1)
      (Action.logRecv p.length :: Action.write mt p :: t.1, t.2)
  | InEvent.ping a :: rest, c, i, w =>
    if wfail w then ([Action.logPing a, Action.logReadErr], c)
    else
      let t := echoGo wfail ext rest c i (w + 1)
      (Action.logPing a :: Action.write pongMessage a :: t.1, t.2)
  | InEvent.pong a :: rest, c, i, w =>
    let t := echoGo wfail ext rest c i w
    (Action.logPong a :: t.1, t.2)
  | InEvent.closeFrame code t :: _, _, _, _ =>
    ([Action.logClose code t, Action.logReadErr], true)
  | InEvent.readFail :: _, c, _, _ => ([Action.logReadErr], c)

/-- The server echo loop: the initial loop-top check followed by `echoGo`. -/
def echoLoop (wfail ext : Nat → Bool) (evs : List InEvent) : List Action × Bool :=
  if ext 0 then ([], false) else echoGo wfail ext evs false 0 0

/-- Model of `Server.ServeHTTP`: on upgrade failure only a log line; on
success, run the echo loop and then unconditionally close the connection,
logging (not propagating) any close error. -/
def ServeHTTP (upgradeOk : Bool) (wfail ext : Nat → Bool) (cfail : Bool)
    (evs : List InEvent) : List Action :=
  if upgradeOk then
    (echoLoop wfail ext evs).1 ++
      Action.closeConn :: (if cfail then [Action.logCloseErr] else [])
  else [Action.logUpgradeErr]

/-- The frames actually written during a run, in order. -/
def writesOf : List Action → List (Nat × List Nat)
  | [] => []
  | Action.write mt p :: rest => (mt, p) :: writesOf rest
  | _ :: rest => writesOf rest

/-- How the client's measurement loop exited. -/
inductive ExitKind where
  | completed
  | earlyReturn
  | errReturn
  | brokeOut
deriving DecidableEq

/-- Outcome of the client's measurement loop. -/
structure PingLoopOut where
  acts : List Action
  elapseds : List Int
  exit : ExitKind
deriving DecidableEq

/-- Model of the client's send/measure loop in `Ping`: each iteration checks
the context (early `return nil` when cancelled), writes one binary frame of
`size` zero bytes (a write failure returns a hard error), then blocks
reading the reply (a read failure is logged and breaks the loop); on success
the measured duration is recorded and logged. -/
def pingLoop (wfail ext : Nat → Bool) (dur : Nat → Int) (size : Nat) :
    Nat → List InEvent → Bool → Nat → Nat → PingLoopOut
  | 0, _, _, _, _ => ⟨[], [], ExitKind.completed⟩
  | fuel + 1, evs, c, i, w =>
    if c || ext i then ⟨[], [], ExitKind.earlyReturn⟩
    else if wfail w then ⟨[Action.logWriteErr], [], ExitKind.errReturn⟩
    else
      match readMessage wfail evs (w + 1) with
      | ⟨as, ReadRes.errRead, _, _, _⟩ =>
        ⟨Action.write binaryMessage (List.replicate size 0) :: as ++ [Action.logReadErr],
         [], ExitKind.brokeOut⟩
      | ⟨as, ReadRes.msg _ _, rest, w', cl⟩ =>
        let t := pingLoop wfail ext dur size fuel rest (c || cl) (i + 1) w'
        ⟨Action.write binaryMessage (List.replicate size 0) :: as ++
           Action.logSent size (dur i) :: t.acts,
         dur i :: t.elapseds, t.exit⟩

/-- Full result of one client run. -/
structure PingResult where
  acts : List Action
  err : Bool
  elapseds : List Int
  summary : Option (Nat × Int)
deriving DecidableEq

/-- Model of the client `Ping`: dial (failure is a hard error), run the
measurement loop for `n` iterations (none when `n ≤ 0`), and — only when the
loop fell through normally or broke on a read error, and at least one sample
was collected — log a summary of `size * count` total bytes against the
truncated integer mean of the collected durations.  The cancellation path
returns nil directly and skips the summary.  The connection is closed on
every path after a successful dial, close errors being logged only. -/
def Ping (n : Int) (size : Nat) (dialOk : Bool) (wfail ext : Nat → Bool)
    (dur : Nat → Int) (evs : List InEvent) (cfail : Bool) : PingResult :=
  if dialOk then
    let r := pingLoop wfail ext dur size n.toNat evs false 0 0
    let closeActs := Action.closeConn :: (if cfail then [Action.logCloseErr] else [])
    match r.exit with
    | ExitKind.errReturn => ⟨r.acts ++ closeActs, true, r.elapseds, none⟩
    | ExitKind.earlyReturn => ⟨r.acts ++ closeActs, false, r.elapseds, none⟩
    | _ =>
      if 0 < r.elapseds.length then
        let sum : Int := r.elapseds.foldl (fun a d => a + d) 0
        let mean : Int := Int.tdiv sum (r.elapseds.length : Int)
        ⟨r.acts ++ Action.logSummary (size * r.elapseds.length) mean :: closeActs,
         false, r.elapseds, some (size * r.elapseds.length, mean)⟩
      else ⟨r.acts ++ closeActs, false, r.elapseds, none⟩
  else ⟨[], true, [], none⟩

/-- A minimal model of an HTTP request, carrying the headers the upgrader's
origin check could inspect. -/
structure HttpRequest where
  origin : List Nat
  host : List Nat
deriving DecidableEq

/-- The origin-check predicate installed by `NewServer` on the upgrader:
it accepts every request. -/
def CheckOrigin (_ : HttpRequest) : Bool := true

/-- The upgrader rejects a request on origin grounds exactly when the
origin check returns false. -/
def originRejected (r : HttpRequest) : Bool := !(CheckOrigin r)

end Wsecho

namespace Wsecho

/-! ### Helper lemmas -/

lemma writesOf_append (a b : List Action) :
    writesOf (a ++ b) = writesOf a ++ writesOf b := by
  induction a with
  | nil => rfl
  | cons x xs ih => cases x <;> simp [writesOf, ih]

lemma foldl_add_eq_sum (l : List Int) : l.foldl (fun a d => a + d) 0 = l.sum := by
  have h : ∀ a : Int, l.foldl (fun a d => a + d) a = a + l.sum := by
    induction l with
    | nil => intro a; simp
    | cons x xs ih => intro a; simp [List.foldl, ih, add_assoc]
  simpa using h 0

/-- Actions of `j` consecutive successful client iterations starting at
iteration `iter`: each writes one binary frame of `size` zero bytes and logs
the measured duration. -/
def successActs (size : Nat) (dur : Nat → Int) : Nat → Nat → List Action
  | 0, _ => []
  | j + 1, iter =>
    Action.write binaryMessage (List.replicate size 0) ::
      Action.logSent size (dur iter) :: successActs size dur j (iter + 1)

/-- The durations measured by `j` consecutive successful client iterations
starting at iteration `iter`. -/
def durSeq (dur : Nat → Int) : Nat → Nat → List Int
  | 0, _ => []
  | j + 1, iter => dur iter :: durSeq dur j (iter + 1)

lemma durSeq_eq_map (dur : Nat → Int) :
    ∀ j iter, durSeq dur j iter = (List.range j).map (fun t => dur (iter + t)) := by
  intro j
  induction j with
  | zero => intro iter; simp [durSeq]
  | succ j ih =>
    intro iter
    rw [durSeq, ih (iter + 1), List.range_succ_eq_map]
    simp only [List.map_cons, List.map_map, Nat.add_zero]
    congr 1
    apply List.map_congr_left
    intro t _
    simp only [Function.comp_apply]
    congr 1
    omega

lemma durSeq_length (dur : Nat → Int) :
    ∀ j iter, (durSeq dur j iter).length = j := by
  intro j
  induction j with
  | zero => intro iter; rfl
  | succ j ih => intro iter; simp [durSeq, ih]

lemma writesOf_successActs (size : Nat) (dur : Nat → Int) :
    ∀ j iter, writesOf (successActs size dur j iter) =
      List.replicate j (binaryMessage, List.replicate size 0) := by
  intro j
  induction j with
  | zero => intro iter; rfl
  | succ j ih => intro iter; simp [successActs, writesOf, ih, List.replicate_succ]

lemma echoGo_closeConn_not_mem (wfail ext : Nat → Bool) :
    ∀ evs c i w, Action.closeConn ∉ (echoGo wfail ext evs c i w).1 := by
  intro evs
  induction evs with
  | nil => intro c i w; simp [echoGo]
  | cons e rest ih =>
    intro c i w
    cases e with
    | data mt p =>
      by_cases hw : wfail w
      · simp [echoGo, hw]
      · by_cases hc : c || ext (i + 1) <;> simp [echoGo, hw, hc, ih]
    | ping a => by_cases hw : wfail w <;> simp [echoGo, hw, ih]
    | pong a => simp [echoGo, ih]
    | closeFrame code t => simp [echoGo]
    | readFail => simp [echoGo]

lemma echoGo_logCloseErr_not_mem (wfail ext : Nat → Bool) :
    ∀ evs c i w, Action.logCloseErr ∉ (echoGo wfail ext evs c i w).1 := by
  intro evs
  induction evs with
  | nil => intro c i w; simp [echoGo]
  | cons e rest ih =>
    intro c i w
    cases e with
    | data mt p =>
      by_cases hw : wfail w
      · simp [echoGo, hw]
      · by_cases hc : c || ext (i + 1) <;> simp [echoGo, hw, hc, ih]
    | ping a => by_cases hw : wfail w <;> simp [echoGo, hw, ih]
    | pong a => simp [echoGo, ih]
    | closeFrame code t => simp [echoGo]
    | readFail => simp [echoGo]

lemma echoLoop_closeConn_count (wfail ext : Nat → Bool) (evs : List InEvent) :
    (echoLoop wfail ext evs).1.count Action.closeConn = 0 := by
  unfold echoLoop
  by_cases h : ext 0 <;>
    simp [h, List.count_eq_zero, echoGo_closeConn_not_mem]

lemma echoLoop_logCloseErr_count (wfail ext : Nat → Bool) (evs : List InEvent) :
    (echoLoop wfail ext evs).1.count Action.logCloseErr = 0 := by
  unfold echoLoop
  by_cases h : ext 0 <;>
    simp [h, List.count_eq_zero, echoGo_logCloseErr_not_mem]

lemma echoGo_trace (wfail ext : Nat → Bool) (hw : ∀ t, wfail t = false)
    (hext : ∀ t, ext t = false) :
    ∀ (frames : List (Nat × List Nat)) (i w : Nat),
      writesOf (echoGo wfail ext (frames.map fun q => InEvent.data q.1 q.2) false i w).1
        = frames := by
  intro frames
  induction frames with
  | nil => intro i w; simp [echoGo, writesOf]
  | cons q fr ih =>
    intro i w
    simp only [List.map_cons]
    rw [show (InEvent.data q.1 q.2 : InEvent) = InEvent.data q.1 q.2 from rfl]
    simp [echoGo, hw, hext, writesOf, ih]

end Wsecho

namespace Wsecho

lemma pingLoop_front (wfail ext : Nat → Bool) (dur : Nat → Int) (size : Nat)
    (mt : Nat) (p : List Nat) :
    ∀ (j fuel iter wc : Nat) (evs : List InEvent),
      (∀ t, t < j → ext (iter + t) = false) →
      (∀ t, t < j → wfail (wc + t) = false) →
      pingLoop wfail ext dur size (j + fuel)
          (List.replicate j (InEvent.data mt p) ++ evs) false iter wc =
        ⟨successActs size dur j iter ++
           (pingLoop wfail ext dur size fuel evs false (iter + j) (wc + j)).acts,
         durSeq dur j iter ++
           (pingLoop wfail ext dur size fuel evs false (iter + j) (wc + j)).elapseds,
         (pingLoop wfail ext dur size fuel evs false (iter + j) (wc + j)).exit⟩ := by
  intro j
  induction j with
  | zero =>
    intro fuel iter wc evs _ _
    simp [successActs, durSeq]
  | succ j ih =>
    intro fuel iter wc evs hext hw
    have hadd : j + 1 + fuel = (j + fuel) + 1 := by omega
    rw [hadd, List.replicate_succ, List.cons_append, pingLoop]
    have hext0 : ext iter = false := by
      have := hext 0 (by omega); simpa using this
    have hw0 : wfail wc = false := by
      have := hw 0 (by omega); simpa using this
    have hrm : readMessage wfail (InEvent.data mt p ::
        (List.replicate j (InEvent.data mt p) ++ evs)) (wc + 1) =
        ⟨[], ReadRes.msg mt p, List.replicate j (InEvent.data mt p) ++ evs,
          wc + 1, false⟩ := rfl
    rw [hrm]
    simp only [hext0, hw0, Bool.false_or, Bool.or_false, if_false, Bool.false_eq_true,
      if_neg (by simp : ¬ (false : Bool) = true)]
    have ihx := ih fuel (iter + 1) (wc + 1) evs
      (by intro t ht
          have := hext (t + 1) (by omega)
          have harg : iter + 1 + t = iter + (t + 1) := by omega
          rw [harg]; exact this)
      (by intro t ht
          have := hw (t + 1) (by omega)
          have harg : wc + 1 + t = wc + (t + 1) := by omega
          rw [harg]; exact this)
    rw [ihx]
    have h1 : iter + 1 + j = iter + (j + 1) := by omega
    have h2 : wc + 1 + j = wc + (j + 1) := by omega
    simp [successActs, durSeq, h1, h2]

end Wsecho

namespace Wsecho

/-! ### Claim theorems: server side -/

/-- C1: for every application frame read successfully by the server's echo
loop with kind text or binary and payload bytes `B`, the handler writes back
exactly one frame with the same kind and the same payload bytes `B` on the
same connection, before reading the next inbound frame; consequently, on a
failure-free connection the written frames are exactly the inbound data
frames, in order. -/
theorem c1_echo_identity (wfail ext : Nat → Bool) :
    (∀ (mt : Nat) (p : List Nat) (rest : List InEvent) (c : Bool) (i w : Nat),
      (mt = textMessage ∨ mt = binaryMessage) → wfail w = false →
      echoGo wfail ext (InEvent.data mt p :: rest) c i w =
        (Action.logRecv p.length :: Action.write mt p ::
           (if c || ext (i + 1) then (([] : List Action), c)
            else echoGo wfail ext rest c (i + 1) (w + 1)).1,
         (if c || ext (i + 1) then (([] : List Action), c)
          else echoGo wfail ext rest c (i + 1) (w + 1)).2)) ∧
    ((∀ t, wfail t = false) → (∀ t, ext t = false) →
      ∀ frames : List (Nat × List Nat),
        writesOf (echoLoop wfail ext (frames.map fun q => InEvent.data q.1 q.2)).1
          = frames) := by
  constructor
  · intro mt p rest c i w _ hw
    simp [echoGo, hw]
  · intro hw hext frames
    unfold echoLoop
    simp [hext 0, echoGo_trace wfail ext hw hext]

/-- Witness for C1 at a concrete input: a text frame `[7, 8]` is echoed back
as one `write` of the same type and payload, and a two-frame connection is
echoed frame for frame. -/
theorem c1_echo_identity_witness :
    (echoGo (fun _ => false) (fun _ => false)
        [InEvent.data textMessage [7, 8]] false 0 0 =
      (Action.logRecv 2 :: Action.write textMessage [7, 8] ::
         (echoGo (fun _ => false) (fun _ => false) [] false 1 1).1,
       (echoGo (fun _ => false) (fun _ => false) [] false 1 1).2)) ∧
    writesOf (echoLoop (fun _ => false) (fun _ => false)
        ([(textMessage, [7, 8]), (binaryMessage, [9])].map
          fun q => InEvent.data q.1 q.2)).1
      = [(textMessage, [7, 8]), (binaryMessage, [9])] := by
  constructor
  · simpa using (c1_echo_identity (fun _ => false) (fun _ => false)).1
      textMessage [7, 8] [] false 0 0 (Or.inl rfl) rfl
  · exact (c1_echo_identity (fun _ => false) (fun _ => false)).2
      (fun _ => rfl) (fun _ => rfl) _

/-- C2: on both the server handler and the client, a received ping with
payload `P` is answered by exactly one written pong frame carrying the same
payload `P`, and the event is logged; a received pong is only logged and no
reply frame is written. -/
theorem c2_ping_pong_contract (wfail : Nat → Bool) (ext : Nat → Bool)
    (a : List Nat) (rest : List InEvent) (c : Bool) (i w : Nat)
    (hw : wfail w = false) :
    (echoGo wfail ext (InEvent.ping a :: rest) c i w =
       (Action.logPing a :: Action.write pongMessage a ::
          (echoGo wfail ext rest c i (w + 1)).1,
        (echoGo wfail ext rest c i (w + 1)).2)) ∧
    (echoGo wfail ext (InEvent.pong a :: rest) c i w =
       (Action.logPong a :: (echoGo wfail ext rest c i w).1,
        (echoGo wfail ext rest c i w).2)) ∧
    (readMessage wfail (InEvent.ping a :: rest) w =
       ⟨Action.logPing a :: Action.write pongMessage a ::
          (readMessage wfail rest (w + 1)).acts,
        (readMessage wfail rest (w + 1)).res,
        (readMessage wfail rest (w + 1)).rest,
        (readMessage wfail rest (w + 1)).wc,
        (readMessage wfail rest (w + 1)).closed⟩) ∧
    (readMessage wfail (InEvent.pong a :: rest) w =
       ⟨Action.logPong a :: (readMessage wfail rest w).acts,
        (readMessage wfail rest w).res,
        (readMessage wfail rest w).rest,
        (readMessage wfail rest w).wc,
        (readMessage wfail rest w).closed⟩) := by
  refine ⟨?_, ?_, ?_, ?_⟩ <;> simp [echoGo, readMessage, hw]

/-- Witness for C2 at a concrete input: a ping with payload `[1, 2]` on an
otherwise empty connection. -/
theorem c2_ping_pong_contract_witness :
    (echoGo (fun _ => false) (fun _ => false) [InEvent.ping [1, 2]] false 0 0 =
       (Action.logPing [1, 2] :: Action.write pongMessage [1, 2] ::
          (echoGo (fun _ => false) (fun _ => false) [] false 0 1).1,
        (echoGo (fun _ => false) (fun _ => false) [] false 0 1).2)) ∧
    (echoGo (fun _ => false) (fun _ => false) [InEvent.pong [1, 2]] false 0 0 =
       (Action.logPong [1, 2] ::
          (echoGo (fun _ => false) (fun _ => false) [] false 0 0).1,
        (echoGo (fun _ => false) (fun _ => false) [] false 0 0).2)) := by
  have h := c2_ping_pong_contract (fun _ => false) (fun _ => false)
    [1, 2] [] false 0 0 rfl
  exact ⟨h.1, h.2.1⟩

/-- C6: on every exit path of the server's per-connection handler after a
successful upgrade, `Close` is invoked on the connection exactly once, and a
close error is logged (once, exactly when closing fails) rather than
propagated: the handler's observable behaviour is just this action list. -/
theorem c6_teardown_once (wfail ext : Nat → Bool) (cfail : Bool)
    (evs : List InEvent) :
    (ServeHTTP true wfail ext cfail evs).count Action.closeConn = 1 ∧
    (ServeHTTP true wfail ext cfail evs).count Action.logCloseErr =
      (if cfail then 1 else 0) := by
  cases cfail <;>
    simp [ServeHTTP, List.count_append, List.count_cons,
      echoLoop_closeConn_count, echoLoop_logCloseErr_count]

/-- C7: once a close frame is received on a server connection, the close
handler invalidates the lifetime token (the loop's final token state is
`true`), the loop performs no further read or write (its result does not
depend on any event after the close frame), and the connection is closed
exactly once. -/
theorem c7_close_frame_terminates (wfail ext : Nat → Bool) (cfail : Bool)
    (code : Int) (txt : List Nat) (post post' : List InEvent)
    (c : Bool) (i w : Nat) :
    (echoGo wfail ext (InEvent.closeFrame code txt :: post) c i w =
        ([Action.logClose code txt, Action.logReadErr], true)) ∧
    (echoGo wfail ext (InEvent.closeFrame code txt :: post) c i w =
        echoGo wfail ext (InEvent.closeFrame code txt :: post') c i w) ∧
    (ServeHTTP true wfail ext cfail
        (InEvent.closeFrame code txt :: post)).count Action.closeConn = 1 := by
  refine ⟨rfl, rfl, ?_⟩
  cases cfail <;>
    simp [ServeHTTP, List.count_append, List.count_cons, echoLoop_closeConn_count]

/-- C10: the upgrader's origin-check predicate returns true for every HTTP
request, so no upgrade is rejected on origin grounds. -/
theorem c10_origin_always_accepted (r : HttpRequest) :
    CheckOrigin r = true ∧ originRejected r = false :=
  ⟨rfl, rfl⟩

end Wsecho

namespace Wsecho

/-! ### Claim theorems: client side -/

lemma pingLoop_success_run (wfail ext : Nat → Bool) (dur : Nat → Int)
    (size : Nat) (mt : Nat) (p : List Nat) (N : Nat)
    (hext : ∀ t, t < N → ext t = false) (hw : ∀ t, t < N → wfail t = false) :
    pingLoop wfail ext dur size N
        (List.replicate N (InEvent.data mt p)) false 0 0 =
      ⟨successActs size dur N 0, durSeq dur N 0, ExitKind.completed⟩ := by
  have h := pingLoop_front wfail ext dur size mt p N 0 0 0 []
    (by intro t ht; simpa using hext t ht)
    (by intro t ht; simpa using hw t ht)
  simpa [pingLoop] using h

/-- C4: given `N` iterations that all complete their round trip with
measured durations `d₀..d_{N-1}`, the reported mean duration is the
(truncated integer) quotient `(Σ dᵢ) / N` and the reported aggregate byte
count is `size * N`. -/
theorem c4_summary_stats (n : Int) (size : Nat) (wfail ext : Nat → Bool)
    (dur : Nat → Int) (cfail : Bool) (mt : Nat) (p : List Nat)
    (hn : 0 < n) (hw : ∀ t, wfail t = false) (hext : ∀ t, ext t = false) :
    (Ping n size true wfail ext dur
        (List.replicate n.toNat (InEvent.data mt p)) cfail).elapseds
      = (List.range n.toNat).map dur ∧
    (Ping n size true wfail ext dur
        (List.replicate n.toNat (InEvent.data mt p)) cfail).summary
      = some (size * n.toNat,
          Int.tdiv ((List.range n.toNat).map dur).sum (n.toNat : Int)) := by
  have hds : durSeq dur n.toNat 0 = (List.range n.toNat).map dur := by
    rw [durSeq_eq_map]; simp
  have hpl := pingLoop_success_run wfail ext dur size mt p n.toNat
    (fun t _ => hext t) (fun t _ => hw t)
  have hN : 0 < n.toNat := by omega
  have hlen : (durSeq dur n.toNat 0).length = n.toNat := durSeq_length dur n.toNat 0
  simp [Ping, hpl, hds, hlen, hN, foldl_add_eq_sum]

/-- Witness for C4: two iterations of size 3 with durations 1 and 2 report
6 total bytes and mean `(1 + 2) / 2 = 1`. -/
theorem c4_summary_stats_witness :
    (0 : Int) < 2 ∧
    (Ping 2 3 true (fun _ => false) (fun _ => false) (fun i => (i : Int) + 1)
        (List.replicate (2 : Int).toNat (InEvent.data binaryMessage [0])) false).summary
      = some (3 * (2 : Int).toNat,
          Int.tdiv ((List.range (2 : Int).toNat).map (fun i => (i : Int) + 1)).sum
            ((2 : Int).toNat : Int)) :=
  ⟨by decide,
   (c4_summary_stats 2 3 (fun _ => false) (fun _ => false) (fun i => (i : Int) + 1)
      false binaryMessage [0] (by decide) (fun _ => rfl) (fun _ => rfl)).2⟩

/-- C8: every client iteration that sends writes a binary frame whose payload
is exactly `size` zero bytes (it is the first action of the iteration), and
an error-free, uninterrupted run of `n` iterations writes exactly `n.toNat`
such frames and nothing else. -/
theorem c8_binary_zero_frames (wfail ext : Nat → Bool) (dur : Nat → Int)
    (size : Nat) :
    (∀ (fuel : Nat) (evs : List InEvent) (c : Bool) (i w : Nat),
      c = false → ext i = false → wfail w = false →
      (pingLoop wfail ext dur size (fuel + 1) evs c i w).acts.head? =
        some (Action.write binaryMessage (List.replicate size 0))) ∧
    (∀ (n : Int) (cfail : Bool) (mt : Nat) (p : List Nat),
      (∀ t, wfail t = false) → (∀ t, ext t = false) →
      writesOf (Ping n size true wfail ext dur
          (List.replicate n.toNat (InEvent.data mt p)) cfail).acts =
        List.replicate n.toNat (binaryMessage, List.replicate size 0)) := by
  constructor
  · intro fuel evs c i w hc hi hw
    subst hc
    rcases h : readMessage wfail evs (w + 1) with ⟨as, res, rest, w', cl⟩
    cases res <;> simp [pingLoop, hi, hw, h]
  · intro n cfail mt p hw hext
    have hpl := pingLoop_success_run wfail ext dur size mt p n.toNat
      (fun t _ => hext t) (fun t _ => hw t)
    by_cases hN : 0 < n.toNat <;>
      cases cfail <;>
        simp [Ping, hpl, hN, durSeq_length, writesOf_append,
          writesOf_successActs, writesOf]

/-- Witness for C8: a concrete three-iteration run of size 2 sends exactly
three binary frames of two zero bytes. -/
theorem c8_binary_zero_frames_witness :
    writesOf (Ping 3 2 true (fun _ => false) (fun _ => false) (fun _ => 1)
        (List.replicate (3 : Int).toNat (InEvent.data binaryMessage [9, 9])) false).acts
      = List.replicate (3 : Int).toNat (binaryMessage, List.replicate 2 0) :=
  (c8_binary_zero_frames (fun _ => false) (fun _ => false) (fun _ => 1) 2).2
    3 false binaryMessage [9, 9] (fun _ => rfl) (fun _ => rfl)

/-- C9: when `Ping` is invoked with an iteration count `n ≤ 0` and the dial
succeeds, it sends no frames, collects no samples, emits no summary, closes
the connection (once), and returns nil. -/
theorem c9_nonpositive_iterations (n : Int) (size : Nat)
    (wfail ext : Nat → Bool) (dur : Nat → Int) (evs : List InEvent)
    (cfail : Bool) (hn : n ≤ 0) :
    Ping n size true wfail ext dur evs cfail =
      ⟨Action.closeConn :: (if cfail then [Action.logCloseErr] else []),
       false, [], none⟩ ∧
    writesOf (Ping n size true wfail ext dur evs cfail).acts = [] := by
  have h0 : n.toNat = 0 := by omega
  constructor <;> cases cfail <;> simp [Ping, h0, pingLoop, writesOf]

/-- Witness for C9 at `n = -3`. -/
theorem c9_nonpositive_iterations_witness :
    (-3 : Int) ≤ 0 ∧
    Ping (-3) 16 true (fun _ => false) (fun _ => false) (fun _ => 1)
        [InEvent.data binaryMessage [0]] false =
      ⟨[Action.closeConn], false, [], none⟩ :=
  ⟨by decide,
   by simpa using (c9_nonpositive_iterations (-3) 16 (fun _ => false) (fun _ => false)
      (fun _ => 1) [InEvent.data binaryMessage [0]] false (by decide)).1⟩

end Wsecho

namespace Wsecho

/-- Counterexample to C3 as stated: with `n = 2` and the lifetime token
invalidated after `k = 1` completed iteration, the run does terminate at the
boundary check and returns nil, and exactly one sample was collected — but
no statistics are reported at all: the early-return path skips the summary
block, so the summary is `none` rather than a report over the 1 sample. -/
theorem c3_cancel_skips_summary_counterexample :
    (Ping 2 4 true (fun _ => false) (fun i => decide (1 ≤ i)) (fun _ => 5)
        [InEvent.data binaryMessage [0, 0, 0, 0]] false).err = false ∧
    (Ping 2 4 true (fun _ => false) (fun i => decide (1 ≤ i)) (fun _ => 5)
        [InEvent.data binaryMessage [0, 0, 0, 0]] false).elapseds.length = 1 ∧
    (Ping 2 4 true (fun _ => false) (fun i => decide (1 ≤ i)) (fun _ => 5)
        [InEvent.data binaryMessage [0, 0, 0, 0]] false).summary = none := by
  decide

/-- C3 (amended): if the client's lifetime token is invalidated after
`k < N` completed iterations, the next iteration's boundary check makes the
run terminate and return without error, with exactly the `k` collected
samples; no summary is emitted on this path, even when `k > 0` (the early
`return nil` skips the aggregation block). -/
theorem c3_cancelled_run (n : Int) (size k : Nat) (wfail : Nat → Bool)
    (dur : Nat → Int) (cfail : Bool) (mt : Nat) (p : List Nat)
    (hk : k < n.toNat) (hw : ∀ t, wfail t = false) :
    (Ping n size true wfail (fun i => decide (k ≤ i)) dur
        (List.replicate k (InEvent.data mt p)) cfail).err = false ∧
    (Ping n size true wfail (fun i => decide (k ≤ i)) dur
        (List.replicate k (InEvent.data mt p)) cfail).summary = none ∧
    (Ping n size true wfail (fun i => decide (k ≤ i)) dur
        (List.replicate k (InEvent.data mt p)) cfail).elapseds
      = (List.range k).map dur := by
  obtain ⟨fuel, hfuel⟩ : ∃ fuel, n.toNat = k + (fuel + 1) :=
    ⟨n.toNat - k - 1, by omega⟩
  have hfront := pingLoop_front wfail (fun i => decide (k ≤ i)) dur size mt p
    k (fuel + 1) 0 0 []
    (by intro t ht; simp; omega)
    (by intro t ht; simpa using hw t)
  rw [List.append_nil] at hfront
  have htail : pingLoop wfail (fun i => decide (k ≤ i)) dur size (fuel + 1)
      [] false (0 + k) (0 + k) = ⟨[], [], ExitKind.earlyReturn⟩ := by
    simp [pingLoop]
  have hpl : pingLoop wfail (fun i => decide (k ≤ i)) dur size n.toNat
      (List.replicate k (InEvent.data mt p)) false 0 0 =
      ⟨successActs size dur k 0, durSeq dur k 0, ExitKind.earlyReturn⟩ := by
    rw [hfuel, hfront, htail]; simp
  have hds : durSeq dur k 0 = (List.range k).map dur := by
    rw [durSeq_eq_map]; simp
  simp [Ping, hpl, hds]

/-- Witness for C3 (amended) at `n = 3`, `k = 2`. -/
theorem c3_cancelled_run_witness :
    (2 : Nat) < (3 : Int).toNat ∧
    (Ping 3 4 true (fun _ => false) (fun i => decide (2 ≤ i)) (fun i => (i : Int))
        (List.replicate 2 (InEvent.data binaryMessage [0])) false).summary = none :=
  ⟨by decide,
   (c3_cancelled_run 3 4 2 (fun _ => false) (fun i => (i : Int)) false
      binaryMessage [0] (by decide) (fun _ => rfl)).2.1⟩

/-- C5: the client treats send and read failures asymmetrically.  A write
failure at iteration `k` makes `Ping` return a non-nil error immediately,
with no summary; a read failure at iteration `k` is only logged, stops the
loop after the `k` collected samples, still reports a summary when `k > 0`,
and `Ping` returns nil. -/
theorem c5_send_read_asymmetry (n : Int) (size k : Nat) (dur : Nat → Int)
    (cfail : Bool) (mt : Nat) (p : List Nat) (evs : List InEvent)
    (hk : k < n.toNat) :
    ((Ping n size true (fun w => decide (k ≤ w)) (fun _ => false) dur
        (List.replicate k (InEvent.data mt p) ++ evs) cfail).err = true ∧
     (Ping n size true (fun w => decide (k ≤ w)) (fun _ => false) dur
        (List.replicate k (InEvent.data mt p) ++ evs) cfail).summary = none ∧
     (Ping n size true (fun w => decide (k ≤ w)) (fun _ => false) dur
        (List.replicate k (InEvent.data mt p) ++ evs) cfail).elapseds
       = (List.range k).map dur) ∧
    ((Ping n size true (fun _ => false) (fun _ => false) dur
        (List.replicate k (InEvent.data mt p) ++ InEvent.readFail :: evs) cfail).err
       = false ∧
     (Ping n size true (fun _ => false) (fun _ => false) dur
        (List.replicate k (InEvent.data mt p) ++ InEvent.readFail :: evs) cfail).elapseds
       = (List.range k).map dur ∧
     Action.logReadErr ∈
       (Ping n size true (fun _ => false) (fun _ => false) dur
          (List.replicate k (InEvent.data mt p) ++ InEvent.readFail :: evs) cfail).acts ∧
     (Ping n size true (fun _ => false) (fun _ => false) dur
        (List.replicate k (InEvent.data mt p) ++ InEvent.readFail :: evs) cfail).summary
       = (if 0 < k then
            some (size * k, Int.tdiv ((List.range k).map dur).sum (k : Int))
          else none)) := by
  obtain ⟨fuel, hfuel⟩ : ∃ fuel, n.toNat = k + (fuel + 1) :=
    ⟨n.toNat - k - 1, by omega⟩
  have hds : durSeq dur k 0 = (List.range k).map dur := by
    rw [durSeq_eq_map]; simp
  constructor
  · have hfront := pingLoop_front (fun w => decide (k ≤ w)) (fun _ => false)
      dur size mt p k (fuel + 1) 0 0 evs
      (by intro t ht; simp)
      (by intro t ht; simp; omega)
    have htail : pingLoop (fun w => decide (k ≤ w)) (fun _ => false) dur size
        (fuel + 1) evs false (0 + k) (0 + k) =
        ⟨[Action.logWriteErr], [], ExitKind.errReturn⟩ := by
      simp [pingLoop]
    have hpl : pingLoop (fun w => decide (k ≤ w)) (fun _ => false) dur size
        n.toNat (List.replicate k (InEvent.data mt p) ++ evs) false 0 0 =
        ⟨successActs size dur k 0 ++ [Action.logWriteErr], durSeq dur k 0,
          ExitKind.errReturn⟩ := by
      rw [hfuel, hfront, htail]; simp
    simp [Ping, hpl, hds]
  · have hfront := pingLoop_front (fun _ => false) (fun _ => false)
      dur size mt p k (fuel + 1) 0 0 (InEvent.readFail :: evs)
      (by intro t ht; simp)
      (by intro t ht; simp)
    have htail : pingLoop (fun _ => false) (fun _ => false) dur size
        (fuel + 1) (InEvent.readFail :: evs) false (0 + k) (0 + k) =
        ⟨[Action.write binaryMessage (List.replicate size 0), Action.logReadErr],
          [], ExitKind.brokeOut⟩ := by
      simp [pingLoop, readMessage]
    have hpl : pingLoop (fun _ => false) (fun _ => false) dur size
        n.toNat (List.replicate k (InEvent.data mt p) ++ InEvent.readFail :: evs)
        false 0 0 =
        ⟨successActs size dur k 0 ++
           [Action.write binaryMessage (List.replicate size 0), Action.logReadErr],
          durSeq dur k 0, ExitKind.brokeOut⟩ := by
      rw [hfuel, hfront, htail]; simp
    by_cases hkpos : 0 < k <;>
      simp [Ping, hpl, hds, durSeq_length, foldl_add_eq_sum, hkpos]

/-- Witness for C5 at `n = 3`, `k = 1`: a write failure at iteration 1
returns an error with no summary; a read failure at iteration 1 returns nil
and reports a summary over the single sample. -/
theorem c5_send_read_asymmetry_witness :
    (1 : Nat) < (3 : Int).toNat ∧
    (Ping 3 4 true (fun w => decide (1 ≤ w)) (fun _ => false) (fun _ => 7)
        (List.replicate 1 (InEvent.data binaryMessage [0]) ++ []) false).err = true ∧
    (Ping 3 4 true (fun _ => false) (fun _ => false) (fun _ => 7)
        (List.replicate 1 (InEvent.data binaryMessage [0]) ++
          InEvent.readFail :: []) false).err = false :=
  ⟨by decide,
   (c5_send_read_asymmetry 3 4 1 (fun _ => 7) false binaryMessage [0] []
      (by decide)).1.1,
   (c5_send_read_asymmetry 3 4 1 (fun _ => 7) false binaryMessage [0] []
      (by decide)).2.1⟩

end Wsecho
